import Mathlib

/-
Shallow embedding of edward/inferences/hmc.py (class HMC and the module-level
leapfrog function).

Modelling conventions:
* Latent variables are the elements of a fixed finite index type ι: a Python
  dict keyed by latent variables becomes a total function out of ι.
* A tensor is a flattened list of exact scalars (ℚ stands in for float under
  exact arithmetic); a variable's event shape is recorded as its element count.
* The log-joint oracle (HMC.log_joint) is external per the spec; it is a
  parameter lj : state → Option ℚ where none models a non-finite (NaN) float
  value, and the Option-propagating arithmetic oadd/osub models IEEE NaN
  propagation through + and -.  The gradient oracle (tf.gradients of the log
  joint) is a parameter grad : state → state, a pure function of position.
* Random draws are inputs: the momentum dict old_r_sample is a parameter r0,
  and the Uniform(0,1) draw u enters the code only through tf.log(u), so it is
  represented by its logarithm logu (log maps (0,1) bijectively onto the
  negative reals, so "u in (0,1)" is exactly "logu < 0").
* tf.cond with a scalar boolean and the per-variable tf.scatter_update at row
  self.t become an if on a shared Bool and a pointwise store update.
-/

namespace EdwardHMC

/-- A (flattened) real tensor: list of exact scalars. -/
abbrev Tensor := List ℚ

/-- A dict mapping each latent variable to a tensor: a point in position or
momentum space. -/
abbrev HState (ι : Type) := ι → Tensor

/-- Elementwise x + c * g, the only arithmetic pattern leapfrog uses
(`r + 0.5 * step_size * grad[i]`, `z + step_size * r_new[key]`). -/
def addScaled (c : ℚ) (x g : Tensor) : Tensor :=
  List.zipWith (fun a b => a + c * b) x g

/-- One leapfrog sub-step, transcribing the module-level function
`leapfrog(z_old, r_old, step_size, log_joint)` of hmc.py with the gradient
oracle abstracted: first half-step momentum update with the gradient at z_old,
full position step with the half-updated momentum, second half-step momentum
update with the gradient at the new position. -/
def leapfrog (grad : HState ι → HState ι) (step_size : ℚ)
    (z_old r_old : HState ι) : HState ι × HState ι :=
  let g1 := grad z_old
  let r_half := fun k => addScaled (0.5 * step_size) (r_old k) (g1 k)
  let z_new := fun k => addScaled step_size (z_old k) (r_half k)
  let g2 := grad z_new
  let r_new := fun k => addScaled (0.5 * step_size) (r_half k) (g2 k)
  (z_new, r_new)

/-- The integration loop of HMC.build_update, exactly as written in the code:
`new = old; for _ in range(n_steps): new = leapfrog(old_sample, old_r_sample, ...)`.
Note the loop body reads old_sample/old_r_sample, not the previous iterate. -/
def simulateHamiltonian (grad : HState ι → HState ι) (step_size : ℚ)
    (n_steps : ℕ) (z_old r_old : HState ι) : HState ι × HState ι :=
  (List.range n_steps).foldl (fun _cur _i => leapfrog grad step_size z_old r_old)
    (z_old, r_old)

/-- The n-fold composition of single leapfrog sub-steps: the integrator the
spec describes (each sub-step's output state feeds the next sub-step). -/
def leapfrogN (grad : HState ι → HState ι) (step_size : ℚ) (n : ℕ)
    (p : HState ι × HState ι) : HState ι × HState ι :=
  (fun q => leapfrog grad step_size q.1 q.2)^[n] p

/-- Total kinetic energy
`tf.reduce_sum([0.5 * tf.square(r) for r in six.itervalues(r_sample)])`:
sum over all variables and all elements of 0.5 * r². -/
def kineticEnergy [Fintype ι] (r : HState ι) : ℚ :=
  ∑ k, ((r k).map (fun x => 0.5 * x ^ 2)).sum

/-- Float addition with NaN propagation: none models a NaN operand. -/
def oadd : Option ℚ → Option ℚ → Option ℚ
  | some a, some b => some (a + b)
  | _, _ => none

/-- Float subtraction with NaN propagation: none models a NaN operand. -/
def osub : Option ℚ → Option ℚ → Option ℚ
  | some a, some b => some (a - b)
  | _, _ => none

/-- The log-acceptance-ratio of HMC.build_update, folding the four statements
`ratio = Σ½r_old²; ratio -= Σ½r_new²; ratio += log_joint(new); ratio -= log_joint(old)`
with NaN propagation through the float arithmetic. -/
def ratioVal [Fintype ι] (lj : HState ι → Option ℚ)
    (r_old r_new : HState ι) (z_old z_new : HState ι) : Option ℚ :=
  osub (oadd (osub (some (kineticEnergy r_old)) (some (kineticEnergy r_new)))
      (lj z_new))
    (lj z_old)

/-- The accept decision `accept = tf.log(u) < ratio`: an IEEE comparison with
a NaN operand is false, so a NaN ratio yields false. -/
def acceptDecision (logu : ℚ) : Option ℚ → Bool
  | none => false
  | some x => decide (logu < x)

/-- The chain-store read index `tf.maximum(self.t - 1, 0)` (ℕ subtraction
truncates at 0 exactly as the integer clamp does for t ≥ 0). -/
def gatherIndex (t : ℕ) : ℕ :=
  max (t - 1) 0

/-- `old_sample = {z: tf.gather(qz.params, tf.maximum(self.t - 1, 0)) ...}`:
read each variable's chain at the clamped previous index. -/
def oldSample (store : ι → ℕ → Tensor) (t : ℕ) : HState ι :=
  fun k => store k (gatherIndex t)

/-- `tf.scatter_update(variable, self.t, sample[z])` for every latent
variable: write row t of each variable's chain, leaving every other row. -/
def storeWrite [DecidableEq ι] (store : ι → ℕ → Tensor) (t : ℕ)
    (s : HState ι) : ι → ℕ → Tensor :=
  fun k i => if i = t then s k else store k i

/-- The observable outcome of one HMC.build_update call: the updated chain
store, the committed sample dict, the accept boolean, and the updated
n_accept counter. -/
structure UpdateResult (ι : Type) where
  newStore : ι → ℕ → Tensor
  committed : HState ι
  accept : Bool
  nAccept : ℕ

/-- HMC.build_update: read the old sample, take the momentum draw r0, run the
integration loop, form the log-acceptance-ratio, decide on accept with the
uniform draw (through its log), commit the chosen sample dict at row t and add
`tf.select(accept, 1, 0)` to n_accept. -/
def build_update [Fintype ι] [DecidableEq ι]
    (grad : HState ι → HState ι) (lj : HState ι → Option ℚ)
    (step_size : ℚ) (n_steps : ℕ) (store : ι → ℕ → Tensor) (t : ℕ)
    (r0 : HState ι) (logu : ℚ) (n_accept : ℕ) : UpdateResult ι :=
  let old := oldSample store t
  let prop := simulateHamiltonian grad step_size n_steps old r0
  let rat := ratioVal lj r0 prop.2 old prop.1
  let acc := acceptDecision logu rat
  let sample := fun k => if acc then prop.1 k else old k
  ⟨storeWrite store t sample, sample, acc, n_accept + (if acc then 1 else 0)⟩

/-- All tensors of a state have their variable's declared event shape. -/
def Shaped (sh : ι → ℕ) (s : HState ι) : Prop :=
  ∀ k, (s k).length = sh k

/-- The gradient-oracle contract from the spec's external interface: at any
shape-correct position it returns one gradient tensor per latent variable
matching that variable's shape. -/
def GradOracle (sh : ι → ℕ) (grad : HState ι → HState ι) : Prop :=
  ∀ s, Shaped sh s → Shaped sh (grad s)

/-! ### Spec-side definitions

These follow the spec's wording, to be compared with the definitions
transcribed from the code. -/

/-- Elementwise tensor addition (spec wording). -/
def tadd (x y : Tensor) : Tensor :=
  List.zipWith (· + ·) x y

/-- Scalar multiple of a tensor (spec wording). -/
def smul (c : ℚ) (x : Tensor) : Tensor :=
  x.map (fun a => c * a)

/-- One leapfrog sub-step as §4.2 of the spec words it: r_half = r +
(step_size/2)·∇log p(z) at the input z, then z₁ = z + step_size·r_half with
the half-updated momentum, then r₁ = r_half + (step_size/2)·∇log p(z₁) at the
new position. -/
def leapfrogSpecStep (grad : HState ι → HState ι) (step_size : ℚ)
    (z r : HState ι) : HState ι × HState ι :=
  let r_half := fun k => tadd (r k) (smul (step_size / 2) (grad z k))
  let z1 := fun k => tadd (z k) (smul step_size (r_half k))
  let r1 := fun k => tadd (r_half k) (smul (step_size / 2) (grad z1 k))
  (z1, r1)

/-- The sum of squares of every element of every variable's tensor (spec
wording for twice the kinetic energy). -/
def sumSquares [Fintype ι] (r : HState ι) : ℚ :=
  ∑ k, ((r k).map (fun x => x * x)).sum

/-! ### Helper lemmas -/

theorem length_addScaled (c : ℚ) (x g : Tensor) :
    (addScaled c x g).length = min x.length g.length :=
  List.length_zipWith _ _ _

/-- Adding c·g and then −c·g elementwise returns the original list, provided
g is at least as long as the original (so no truncation loses entries). -/
theorem addScaled_neg_cancel (c : ℚ) (x g : Tensor) (hl : x.length ≤ g.length) :
    addScaled (-c) (addScaled c x g) g = x := by
  induction x generalizing g with
  | nil => simp [addScaled]
  | cons a x ih =>
    cases g with
    | nil => simp at hl
    | cons b g =>
      simp only [addScaled, List.zipWith_cons_cons, List.cons.injEq]
      refine ⟨by ring, ih g (by simpa using hl)⟩

theorem sum_map_half_sq (l : List ℚ) :
    (l.map (fun x => 0.5 * x ^ 2)).sum = (l.map (fun x => x * x)).sum / 2 := by
  induction l with
  | nil => simp
  | cons a l ih => simp [ih]; ring

/-- The integration loop returns the single-application value whenever
n_steps ≥ 1 (the loop body never consumes the previous iterate). -/
theorem simulateHamiltonian_pos (grad : HState ι → HState ι) (step_size : ℚ)
    (n_steps : ℕ) (hn : 1 ≤ n_steps) (z_old r_old : HState ι) :
    simulateHamiltonian grad step_size n_steps z_old r_old =
      leapfrog grad step_size z_old r_old := by
  obtain ⟨m, rfl⟩ := Nat.exists_eq_add_of_le hn
  have h1 : 1 + m = m + 1 := by ring
  rw [h1]
  simp [simulateHamiltonian, List.range_succ]

theorem tadd_smul_eq_addScaled (c : ℚ) (x g : Tensor) :
    tadd x (smul c g) = addScaled c x g := by
  simp [addScaled, tadd, smul, List.zipWith_map_right]

theorem acceptDecision_true_iff (logu : ℚ) (o : Option ℚ) :
    acceptDecision logu o = true ↔ ∃ x, o = some x ∧ logu < x := by
  cases o with
  | none => simp [acceptDecision]
  | some x => simp [acceptDecision]

theorem oadd_none_right (x : Option ℚ) : oadd x none = none := by
  cases x <;> rfl

theorem osub_none_left (y : Option ℚ) : osub none y = none := by
  cases y <;> rfl

theorem leapfrog_fst_eq (grad : HState ι → HState ι) (s : ℚ) (z r : HState ι) :
    (leapfrog grad s z r).1 =
      fun k => addScaled s (z k) (addScaled (0.5 * s) (r k) (grad z k)) :=
  rfl

theorem leapfrog_snd_eq (grad : HState ι → HState ι) (s : ℚ) (z r : HState ι) :
    (leapfrog grad s z r).2 =
      fun k =>
        addScaled (0.5 * s) (addScaled (0.5 * s) (r k) (grad z k))
          (grad (leapfrog grad s z r).1 k) :=
  rfl

theorem simulateHamiltonian_zero (grad : HState ι → HState ι) (s : ℚ)
    (z r : HState ι) : simulateHamiltonian grad s 0 z r = (z, r) :=
  rfl

theorem leapfrogN_zero (grad : HState ι → HState ι) (s : ℚ)
    (p : HState ι × HState ι) : leapfrogN grad s 0 p = p :=
  rfl

theorem leapfrogN_succ_outer (grad : HState ι → HState ι) (s : ℚ) (n : ℕ)
    (p : HState ι × HState ι) :
    leapfrogN grad s (n + 1) p =
      leapfrog grad s (leapfrogN grad s n p).1 (leapfrogN grad s n p).2 := by
  rw [leapfrogN, Function.iterate_succ_apply']
  rfl

theorem leapfrogN_succ_inner (grad : HState ι → HState ι) (s : ℚ) (n : ℕ)
    (p : HState ι × HState ι) :
    leapfrogN grad s (n + 1) p = leapfrogN grad s n (leapfrog grad s p.1 p.2) := by
  rw [leapfrogN, Function.iterate_succ_apply]
  rfl

/-- Both outputs of one leapfrog sub-step keep every variable's event shape,
given a shape-respecting gradient oracle and shape-correct inputs. -/
theorem leapfrog_shaped {sh : ι → ℕ} {grad : HState ι → HState ι}
    (hgrad : GradOracle sh grad) (s : ℚ) {z r : HState ι}
    (hz : Shaped sh z) (hr : Shaped sh r) :
    Shaped sh (leapfrog grad s z r).1 ∧ Shaped sh (leapfrog grad s z r).2 := by
  have hg1 : Shaped sh (grad z) := hgrad z hz
  have hrh : ∀ k, (addScaled (0.5 * s) (r k) (grad z k)).length = sh k := by
    intro k
    rw [length_addScaled, hr k, hg1 k, min_self]
  have h1 : Shaped sh (leapfrog grad s z r).1 := by
    intro k
    rw [leapfrog_fst_eq]
    dsimp only
    rw [length_addScaled, hz k, hrh k, min_self]
  refine ⟨h1, ?_⟩
  have hg2 : Shaped sh (grad (leapfrog grad s z r).1) := hgrad _ h1
  intro k
  rw [leapfrog_snd_eq]
  dsimp only
  rw [length_addScaled, hrh k, hg2 k, min_self]

/-- Iterating leapfrog sub-steps keeps every variable's event shape. -/
theorem leapfrogN_shaped {sh : ι → ℕ} {grad : HState ι → HState ι}
    (hgrad : GradOracle sh grad) (s : ℚ) (n : ℕ) {p : HState ι × HState ι}
    (hz : Shaped sh p.1) (hr : Shaped sh p.2) :
    Shaped sh (leapfrogN grad s n p).1 ∧ Shaped sh (leapfrogN grad s n p).2 := by
  induction n with
  | zero => exact ⟨hz, hr⟩
  | succ n ih =>
    rw [leapfrogN_succ_outer]
    exact leapfrog_shaped hgrad s ih.1 ih.2

/-- One leapfrog sub-step with step −h undoes one sub-step with step h
exactly, for a pure shape-respecting gradient oracle. -/
theorem leapfrog_reverse {sh : ι → ℕ} {grad : HState ι → HState ι}
    (hgrad : GradOracle sh grad) (h : ℚ) {z r : HState ι}
    (hz : Shaped sh z) (hr : Shaped sh r) :
    leapfrog grad (-h) (leapfrog grad h z r).1 (leapfrog grad h z r).2 = (z, r) := by
  have hg1 : Shaped sh (grad z) := hgrad z hz
  have hrh : ∀ k, (addScaled (0.5 * h) (r k) (grad z k)).length = sh k := by
    intro k
    rw [length_addScaled, hr k, hg1 k, min_self]
  have hz1 : Shaped sh (leapfrog grad h z r).1 := (leapfrog_shaped hgrad h hz hr).1
  have hga : Shaped sh (grad (leapfrog grad h z r).1) := hgrad _ hz1
  have hneg : (0.5 : ℚ) * (-h) = -(0.5 * h) := by ring
  have hra : ∀ k,
      addScaled (0.5 * (-h)) ((leapfrog grad h z r).2 k)
          (grad (leapfrog grad h z r).1 k) =
        addScaled (0.5 * h) (r k) (grad z k) := by
    intro k
    rw [leapfrog_snd_eq]
    dsimp only
    rw [hneg, addScaled_neg_cancel]
    rw [hrh k, hga k]
  have hzback : (leapfrog grad (-h) (leapfrog grad h z r).1 (leapfrog grad h z r).2).1 = z := by
    funext k
    rw [leapfrog_fst_eq]
    dsimp only
    rw [hra k, leapfrog_fst_eq]
    dsimp only
    rw [addScaled_neg_cancel]
    rw [hz k, hrh k]
  refine Prod.ext hzback ?_
  funext k
  rw [leapfrog_snd_eq]
  dsimp only
  rw [hra k, hzback, hneg, addScaled_neg_cancel]
  rw [hr k, hg1 k]

section BuildUpdateFields

variable [Fintype ι] [DecidableEq ι] (grad : HState ι → HState ι)
variable (lj : HState ι → Option ℚ) (step_size : ℚ) (n_steps : ℕ)
variable (store : ι → ℕ → Tensor) (t : ℕ) (r0 : HState ι) (logu : ℚ)
variable (n_accept : ℕ)

theorem build_update_accept :
    (build_update grad lj step_size n_steps store t r0 logu n_accept).accept =
      acceptDecision logu
        (ratioVal lj r0
          (simulateHamiltonian grad step_size n_steps (oldSample store t) r0).2
          (oldSample store t)
          (simulateHamiltonian grad step_size n_steps (oldSample store t) r0).1) :=
  rfl

theorem build_update_committed :
    (build_update grad lj step_size n_steps store t r0 logu n_accept).committed =
      fun k =>
        if (build_update grad lj step_size n_steps store t r0 logu n_accept).accept then
          (simulateHamiltonian grad step_size n_steps (oldSample store t) r0).1 k
        else oldSample store t k :=
  rfl

theorem build_update_nAccept :
    (build_update grad lj step_size n_steps store t r0 logu n_accept).nAccept =
      n_accept +
        (if (build_update grad lj step_size n_steps store t r0 logu n_accept).accept
          then 1 else 0) :=
  rfl

theorem build_update_newStore :
    (build_update grad lj step_size n_steps store t r0 logu n_accept).newStore =
      storeWrite store t
        (build_update grad lj step_size n_steps store t r0 logu n_accept).committed :=
  rfl

end BuildUpdateFields

/-! ### Concrete instances used in counterexamples and witnesses -/

/-- A single scalar latent variable whose log-joint gradient is constantly 1
(log p linear in z), for exercising the integration loop. -/
def gradC1 : HState (Fin 1) → HState (Fin 1) :=
  fun _ _ => [1]

/-- The identity gradient oracle on one latent variable (log p quadratic in
z); it preserves every shape. -/
def gradW : HState (Fin 1) → HState (Fin 1) :=
  fun s => s

/-- A log-joint oracle that is the finite constant 3. -/
def ljW : HState (Fin 1) → Option ℚ :=
  fun _ => some 3

/-- A log-joint oracle that always returns NaN. -/
def ljNone : HState (Fin 1) → Option ℚ :=
  fun _ => none

/-- A concrete chain store whose row i holds the scalar i. -/
def storeW : Fin 1 → ℕ → Tensor :=
  fun _ i => [(i : ℚ)]

/-- A concrete momentum draw with two elements. -/
def rW : HState (Fin 1) :=
  fun _ => [1, 2]

/-- A concrete zero position. -/
def zW : HState (Fin 1) :=
  fun _ => [0]

/-- A concrete unit position. -/
def zOne : HState (Fin 1) :=
  fun _ => [1]

/-- Start position z = 0 for the single scalar latent variable. -/
def zC1 : HState (Fin 1) :=
  fun _ => [0]

/-- Start momentum r = 0 for the single scalar latent variable. -/
def rC1 : HState (Fin 1) :=
  fun _ => [0]

/-! ### Claims -/

/-- C1: the spec says the leapfrog sub-steps chain (each sub-step's output is
the next sub-step's input, so the proposal is the n_steps-fold iterate), but
the loop body of HMC.build_update always re-integrates from
(old_sample, old_r_sample): with n_steps = 2 the code's proposal equals a
single leapfrog application (position 1/2 here) while the 2-fold iterate
reaches position 2, so the code's proposal is not the 2-fold iterate. -/
theorem hmc_loop_discards_substeps_C1 :
    simulateHamiltonian gradC1 1 2 zC1 rC1 = leapfrog gradC1 1 zC1 rC1 ∧
    (simulateHamiltonian gradC1 1 2 zC1 rC1).1 0 = [1 / 2] ∧
    (leapfrogN gradC1 1 2 (zC1, rC1)).1 0 = [2] ∧
    simulateHamiltonian gradC1 1 2 zC1 rC1 ≠ leapfrogN gradC1 1 2 (zC1, rC1) := by
  have hs : (simulateHamiltonian gradC1 1 2 zC1 rC1).1 0 = [1 / 2] := by
    simp [simulateHamiltonian, List.range_succ, leapfrog, addScaled, gradC1, zC1, rC1]
    norm_num
  have hn : (leapfrogN gradC1 1 2 (zC1, rC1)).1 0 = [2] := by
    simp [leapfrogN, leapfrog, addScaled, gradC1, zC1, rC1]
    norm_num
  refine ⟨by simp [simulateHamiltonian, List.range_succ], hs, hn, ?_⟩
  intro heq
  rw [heq, hn] at hs
  simp only [List.cons.injEq, and_true] at hs
  norm_num at hs

/-- C4: one leapfrog sub-step computes exactly the spec's Störmer–Verlet
scheme: r_half = r + (h/2)·∇log p(z) at the input position, z₁ = z + h·r_half
with the half-updated momentum and r₁ = r_half + (h/2)·∇log p(z₁) at the new
position, each gradient query made once jointly across all latent variables. -/
theorem leapfrog_substep_matches_spec_C4 (grad : HState ι → HState ι)
    (step_size : ℚ) (z r : HState ι) :
    leapfrog grad step_size z r = leapfrogSpecStep grad step_size z r := by
  simp only [leapfrog, leapfrogSpecStep, tadd_smul_eq_addScaled]
  ring_nf

/-- C9: one update step adds exactly 1 to the acceptance counter when the
proposal is accepted and exactly 0 when it is rejected. -/
theorem hmc_counter_increment_C9 [Fintype ι] [DecidableEq ι]
    (grad : HState ι → HState ι) (lj : HState ι → Option ℚ)
    (step_size : ℚ) (n_steps : ℕ) (store : ι → ℕ → Tensor) (t : ℕ)
    (r0 : HState ι) (logu : ℚ) (n_accept : ℕ) :
    ((build_update grad lj step_size n_steps store t r0 logu n_accept).accept = true ∧
      (build_update grad lj step_size n_steps store t r0 logu n_accept).nAccept =
        n_accept + 1) ∨
    ((build_update grad lj step_size n_steps store t r0 logu n_accept).accept = false ∧
      (build_update grad lj step_size n_steps store t r0 logu n_accept).nAccept =
        n_accept) := by
  cases h : acceptDecision logu
      (ratioVal lj r0
        (simulateHamiltonian grad step_size n_steps (oldSample store t) r0).2
        (oldSample store t)
        (simulateHamiltonian grad step_size n_steps (oldSample store t) r0).1) with
  | false => right; constructor <;> simp [build_update, h]
  | true => left; constructor <;> simp [build_update, h]

/-- C2: when both log-joint evaluations are finite, the log-acceptance-ratio
is exactly KE(r_old) − KE(r_new) + log p(z_new) − log p(z_old), where KE is
one half of the sum of squares of every element of every variable's momentum
tensor. -/
theorem hmc_ratio_formula_C2 [Fintype ι] (lj : HState ι → Option ℚ)
    (r_old r_new z_old z_new : HState ι) (a b : ℚ)
    (ha : lj z_new = some a) (hb : lj z_old = some b) :
    ratioVal lj r_old r_new z_old z_new =
      some (sumSquares r_old / 2 - sumSquares r_new / 2 + a - b) := by
  have hk : ∀ r : HState ι, kineticEnergy r = sumSquares r / 2 := by
    intro r
    simp [kineticEnergy, sumSquares, sum_map_half_sq, ← Finset.sum_div]
  simp [ratioVal, ha, hb, oadd, osub, hk]

theorem hmc_ratio_formula_C2_witness :
    ljW zW = some 3 ∧ ljW rW = some 3 ∧
    ratioVal ljW rW zW rW zW = some (5 / 2) := by
  refine ⟨rfl, rfl, ?_⟩
  have h := hmc_ratio_formula_C2 ljW rW zW rW zW 3 3 rfl rfl
  rw [h]
  norm_num [sumSquares, rW, zW, Fin.sum_univ_one]

/-- C3: a proposal is accepted exactly when log u is below the computed
ratio, and the committed sample dict is the whole proposed dict on accept and
the whole old dict on reject — one joint decision, never a per-variable
mixture. -/
theorem hmc_accept_commit_C3 [Fintype ι] [DecidableEq ι]
    (grad : HState ι → HState ι) (lj : HState ι → Option ℚ)
    (step_size : ℚ) (n_steps : ℕ) (store : ι → ℕ → Tensor) (t : ℕ)
    (r0 : HState ι) (logu : ℚ) (n_accept : ℕ) :
    ((build_update grad lj step_size n_steps store t r0 logu n_accept).accept = true ↔
      ∃ x,
        ratioVal lj r0
            (simulateHamiltonian grad step_size n_steps (oldSample store t) r0).2
            (oldSample store t)
            (simulateHamiltonian grad step_size n_steps (oldSample store t) r0).1 =
          some x ∧ logu < x) ∧
    (((build_update grad lj step_size n_steps store t r0 logu n_accept).accept = true ∧
        ∀ k,
          (build_update grad lj step_size n_steps store t r0 logu n_accept).committed k =
            (simulateHamiltonian grad step_size n_steps (oldSample store t) r0).1 k) ∨
      ((build_update grad lj step_size n_steps store t r0 logu n_accept).accept = false ∧
        ∀ k,
          (build_update grad lj step_size n_steps store t r0 logu n_accept).committed k =
            oldSample store t k)) := by
  constructor
  · rw [build_update_accept]
    exact acceptDecision_true_iff logu _
  · cases h : (build_update grad lj step_size n_steps store t r0 logu n_accept).accept with
    | true =>
      left
      exact ⟨rfl, fun k => by rw [build_update_committed]; simp [h]⟩
    | false =>
      right
      exact ⟨rfl, fun k => by rw [build_update_committed]; simp [h]⟩

/-- C5: for t ≥ 1, the update reads each variable's old position from chain
row max(t−1, 0), writes the decided position into row t (one write per
variable), and leaves every other row unchanged. -/
theorem hmc_store_indices_C5 [Fintype ι] [DecidableEq ι]
    (grad : HState ι → HState ι) (lj : HState ι → Option ℚ)
    (step_size : ℚ) (n_steps : ℕ) (store : ι → ℕ → Tensor) (t : ℕ)
    (r0 : HState ι) (logu : ℚ) (n_accept : ℕ) (_ht : 1 ≤ t) :
    (∀ k,
      (build_update grad lj step_size n_steps store t r0 logu n_accept).newStore k t =
        (build_update grad lj step_size n_steps store t r0 logu n_accept).committed k) ∧
    (∀ k i, i ≠ t →
      (build_update grad lj step_size n_steps store t r0 logu n_accept).newStore k i =
        store k i) ∧
    (∀ k,
      (build_update grad lj step_size n_steps store t r0 logu n_accept).committed k =
        if (build_update grad lj step_size n_steps store t r0 logu n_accept).accept then
          (simulateHamiltonian grad step_size n_steps
            (fun j => store j (max (t - 1) 0)) r0).1 k
        else store k (max (t - 1) 0)) := by
  refine ⟨fun k => ?_, fun k i hi => ?_, fun k => ?_⟩
  · rw [build_update_newStore]
    simp [storeWrite]
  · rw [build_update_newStore]
    simp [storeWrite, hi]
  · rw [build_update_committed]
    rfl

theorem hmc_store_indices_C5_witness :
    1 ≤ 3 ∧
    (build_update gradW ljW 1 2 storeW 3 rW 0 5).newStore 0 3 =
      (build_update gradW ljW 1 2 storeW 3 rW 0 5).committed 0 :=
  ⟨by decide, (hmc_store_indices_C5 gradW ljW 1 2 storeW 3 rW 0 5 (by decide)).1 0⟩

/-- C7: a NaN log-acceptance-ratio (here: the oracle returns NaN at the
proposal) makes the accept comparison false, so the update recommits the old
sample and leaves the acceptance counter unchanged. -/
theorem hmc_nan_rejects_C7 [Fintype ι] [DecidableEq ι]
    (grad : HState ι → HState ι) (lj : HState ι → Option ℚ)
    (step_size : ℚ) (n_steps : ℕ) (store : ι → ℕ → Tensor) (t : ℕ)
    (r0 : HState ι) (logu : ℚ) (n_accept : ℕ)
    (hnan : lj (simulateHamiltonian grad step_size n_steps (oldSample store t) r0).1 =
      none) :
    (build_update grad lj step_size n_steps store t r0 logu n_accept).accept = false ∧
    (∀ k,
      (build_update grad lj step_size n_steps store t r0 logu n_accept).committed k =
        oldSample store t k) ∧
    (build_update grad lj step_size n_steps store t r0 logu n_accept).nAccept =
      n_accept ∧
    (∀ k,
      (build_update grad lj step_size n_steps store t r0 logu n_accept).newStore k t =
        oldSample store t k) := by
  have hrat :
      ratioVal lj r0
          (simulateHamiltonian grad step_size n_steps (oldSample store t) r0).2
          (oldSample store t)
          (simulateHamiltonian grad step_size n_steps (oldSample store t) r0).1 =
        none := by
    rw [ratioVal, hnan, oadd_none_right, osub_none_left]
  have hacc :
      (build_update grad lj step_size n_steps store t r0 logu n_accept).accept = false := by
    rw [build_update_accept, hrat]
    rfl
  refine ⟨hacc, fun k => ?_, ?_, fun k => ?_⟩
  · rw [build_update_committed]
    simp [hacc]
  · rw [build_update_nAccept, hacc]
    simp
  · rw [build_update_newStore, build_update_committed]
    simp [storeWrite, hacc]

theorem hmc_nan_rejects_C7_witness :
    ljNone (simulateHamiltonian gradW 1 2 (oldSample storeW 3) rW).1 = none ∧
    (build_update gradW ljNone 1 2 storeW 3 rW 0 5).accept = false ∧
    (build_update gradW ljNone 1 2 storeW 3 rW 0 5).nAccept = 5 :=
  ⟨rfl, (hmc_nan_rejects_C7 gradW ljNone 1 2 storeW 3 rW 0 5 rfl).1,
    (hmc_nan_rejects_C7 gradW ljNone 1 2 storeW 3 rW 0 5 rfl).2.2.1⟩

/-- C6: with a shape-respecting gradient oracle, a shape-correct chain store
and a shape-correct momentum draw (the momentum sampler draws from a normal
of each variable's event shape), every state arising in one update step keeps
each variable's event shape — the old sample, both integrator outputs, the
committed sample and every chain row after the write — and the leapfrog
integrator maps states over the key set ι to states over the same key set ι,
preserving shapes. -/
theorem hmc_shapes_C6 [Fintype ι] [DecidableEq ι] {sh : ι → ℕ}
    (grad : HState ι → HState ι) (lj : HState ι → Option ℚ)
    (step_size : ℚ) (n_steps : ℕ) (store : ι → ℕ → Tensor) (t : ℕ)
    (r0 : HState ι) (logu : ℚ) (n_accept : ℕ)
    (hgrad : GradOracle sh grad)
    (hstore : ∀ k i, (store k i).length = sh k)
    (hr0 : Shaped sh r0) :
    Shaped sh (oldSample store t) ∧
    Shaped sh (simulateHamiltonian grad step_size n_steps (oldSample store t) r0).1 ∧
    Shaped sh (simulateHamiltonian grad step_size n_steps (oldSample store t) r0).2 ∧
    Shaped sh (build_update grad lj step_size n_steps store t r0 logu n_accept).committed ∧
    (∀ k i,
      ((build_update grad lj step_size n_steps store t r0 logu n_accept).newStore k i).length =
        sh k) ∧
    (∀ z r : HState ι, Shaped sh z → Shaped sh r →
      Shaped sh (leapfrog grad step_size z r).1 ∧
        Shaped sh (leapfrog grad step_size z r).2) := by
  have hold : Shaped sh (oldSample store t) := fun k => hstore k _
  have hsim :
      Shaped sh (simulateHamiltonian grad step_size n_steps (oldSample store t) r0).1 ∧
      Shaped sh (simulateHamiltonian grad step_size n_steps (oldSample store t) r0).2 := by
    rcases Nat.eq_zero_or_pos n_steps with h0 | hpos
    · subst h0
      exact ⟨hold, hr0⟩
    · rw [simulateHamiltonian_pos grad step_size n_steps hpos]
      exact leapfrog_shaped hgrad step_size hold hr0
  have hcom :
      Shaped sh (build_update grad lj step_size n_steps store t r0 logu n_accept).committed := by
    intro k
    rw [build_update_committed]
    dsimp only
    split
    · exact hsim.1 k
    · exact hold k
  refine ⟨hold, hsim.1, hsim.2, hcom, fun k i => ?_, fun z r hz hr => leapfrog_shaped hgrad step_size hz hr⟩
  rw [build_update_newStore]
  unfold storeWrite
  split
  · exact hcom k
  · exact hstore k i

theorem hmc_shapes_C6_witness :
    GradOracle (fun _ => 1) gradW ∧ (∀ k i, (storeW k i).length = 1) ∧
    Shaped (fun _ => 1) zW ∧
    Shaped (fun _ => 1) (build_update gradW ljW 1 2 storeW 3 zW 0 5).committed :=
  ⟨fun _ hs => hs, fun _ _ => rfl, fun _ => rfl,
    (hmc_shapes_C6 gradW ljW 1 2 storeW 3 zW 0 5 (fun _ hs => hs)
      (fun _ _ => rfl) (fun _ => rfl)).2.2.2.1⟩

/-- C8: running the leapfrog integrator for n sub-steps with step h and then,
from the resulting phase-space point, for n sub-steps with step −h returns
exactly the original point, under exact arithmetic, with a pure
shape-respecting gradient oracle and shape-correct start states. -/
theorem hmc_leapfrog_reversible_C8 {sh : ι → ℕ} {grad : HState ι → HState ι}
    (hgrad : GradOracle sh grad) (h : ℚ) (n : ℕ) {z0 r0 : HState ι}
    (hz : Shaped sh z0) (hr : Shaped sh r0) :
    leapfrogN grad (-h) n (leapfrogN grad h n (z0, r0)) = (z0, r0) := by
  induction n with
  | zero => rfl
  | succ n ih =>
    have hq := leapfrogN_shaped hgrad h n (p := (z0, r0)) hz hr
    have hstep :
        leapfrog grad (-h)
            (leapfrog grad h (leapfrogN grad h n (z0, r0)).1
              (leapfrogN grad h n (z0, r0)).2).1
            (leapfrog grad h (leapfrogN grad h n (z0, r0)).1
              (leapfrogN grad h n (z0, r0)).2).2 =
          ((leapfrogN grad h n (z0, r0)).1, (leapfrogN grad h n (z0, r0)).2) :=
      leapfrog_reverse hgrad h hq.1 hq.2
    rw [leapfrogN_succ_outer grad h n (z0, r0),
      leapfrogN_succ_inner grad (-h) n, hstep]
    exact ih

theorem hmc_leapfrog_reversible_C8_witness :
    GradOracle (fun _ => 1) gradW ∧ Shaped (fun _ => 1) zOne ∧
    Shaped (fun _ => 1) zW ∧
    leapfrogN gradW (-1) 2 (leapfrogN gradW 1 2 (zOne, zW)) = (zOne, zW) :=
  ⟨fun _ hs => hs, fun _ => rfl, fun _ => rfl,
    hmc_leapfrog_reversible_C8 (fun _ hs => hs) 1 2 (fun _ => rfl) (fun _ => rfl)⟩

/-- C10: with n_steps = 0 the integration loop body never runs, the proposal
equals the initial point, the log-acceptance-ratio is exactly 0 when the
log-joint at the old sample is finite, so every uniform draw (log u < 0)
accepts, the counter is incremented, and row t receives the value read at
row max(t−1, 0). -/
theorem hmc_nsteps_zero_C10 [Fintype ι] [DecidableEq ι]
    (grad : HState ι → HState ι) (lj : HState ι → Option ℚ)
    (step_size : ℚ) (store : ι → ℕ → Tensor) (t : ℕ)
    (r0 : HState ι) (logu : ℚ) (n_accept : ℕ) (b : ℚ)
    (hb : lj (oldSample store t) = some b) (hu : logu < 0) :
    simulateHamiltonian grad step_size 0 (oldSample store t) r0 =
      (oldSample store t, r0) ∧
    ratioVal lj r0 r0 (oldSample store t) (oldSample store t) = some 0 ∧
    (build_update grad lj step_size 0 store t r0 logu n_accept).accept = true ∧
    (build_update grad lj step_size 0 store t r0 logu n_accept).nAccept =
      n_accept + 1 ∧
    (∀ k,
      (build_update grad lj step_size 0 store t r0 logu n_accept).newStore k t =
        store k (max (t - 1) 0)) := by
  have hrat : ratioVal lj r0 r0 (oldSample store t) (oldSample store t) = some 0 := by
    rw [ratioVal, hb]
    simp [oadd, osub]
  have hacc : (build_update grad lj step_size 0 store t r0 logu n_accept).accept = true := by
    rw [build_update_accept]
    have hr2 :
        ratioVal lj r0 (simulateHamiltonian grad step_size 0 (oldSample store t) r0).2
            (oldSample store t)
            (simulateHamiltonian grad step_size 0 (oldSample store t) r0).1 =
          some 0 := hrat
    rw [hr2]
    simp [acceptDecision, hu]
  refine ⟨rfl, hrat, hacc, ?_, fun k => ?_⟩
  · rw [build_update_nAccept, hacc]
    simp
  · rw [build_update_newStore]
    unfold storeWrite
    simp only [if_pos rfl]
    rw [build_update_committed]
    dsimp only
    rw [hacc]
    rfl

theorem hmc_nsteps_zero_C10_witness :
    ljW (oldSample storeW 3) = some 3 ∧ (-1 : ℚ) < 0 ∧
    (build_update gradW ljW 1 0 storeW 3 zW (-1) 5).accept = true ∧
    (build_update gradW ljW 1 0 storeW 3 zW (-1) 5).nAccept = 6 :=
  ⟨rfl, by norm_num,
    (hmc_nsteps_zero_C10 gradW ljW 1 storeW 3 zW (-1) 5 3 rfl (by norm_num)).2.2.1,
    (hmc_nsteps_zero_C10 gradW ljW 1 storeW 3 zW (-1) 5 3 rfl (by norm_num)).2.2.2.1⟩

end EdwardHMC
